import Mathlib

/-!
Verification of the smartflowcrm personaplex server against its
natural-language specification.

The definitions below are a shallow embedding of the Python sources
`src/personaplex_server/server.py` and
`src/personaplex_server/context_api.py`:

* timestamps (`time.time()`, `datetime.now()`) are modelled as an `Int`
  parameter `now` threaded to every operation that reads the clock;
* Python dicts (insertion ordered) are modelled as association lists
  `List (String × α)` with `dictSet` / `dictGet` / `dictPop` mirroring
  item assignment, `.get` and `.pop`;
* `uuid.uuid4()` is modelled as an explicit `new_id : String` argument;
  freshness, where a property depends on it, is an explicit hypothesis;
* raised exceptions (`HTTPException`) become `Except`; a raise before
  any mutation leaves the caller's state untouched, which the step
  semantics (`SMOp.apply`) makes explicit.
-/

/-- Embedding of one element of `VoiceSession.transcript` (a dict with
speaker, text, timestamp keys), cf. `server.py` lines 504-509. -/
structure TranscriptTurn where
  speaker : String
  text : String
  timestamp : String
deriving DecidableEq, Repr

/-- Embedding of the `VoiceSession` dataclass, `server.py` lines 130-139. -/
structure VoiceSession where
  session_id : String
  persona : String
  created_at : Int
  transcript : List TranscriptTurn
  audio_chunks_in : Nat
  audio_chunks_out : Nat
  is_active : Bool
  last_activity : Int
deriving DecidableEq, Repr

/-- Python dict item assignment `d[k] = v`: replace in place if the key is
present, else append (insertion order preserved). -/
def dictSet {α : Type} (k : String) (v : α) : List (String × α) → List (String × α)
  | [] => [(k, v)]
  | (k', v') :: rest => if k' = k then (k, v) :: rest else (k', v') :: dictSet k v rest

/-- Python dict lookup `d.get(k)`. -/
def dictGet {α : Type} (k : String) : List (String × α) → Option α
  | [] => none
  | (k', v) :: rest => if k' = k then some v else dictGet k rest

/-- Python dict `d.pop(k, None)`: the removed value (if any) and the
remaining dict. -/
def dictPop {α : Type} (k : String) : List (String × α) → Option α × List (String × α)
  | [] => (none, [])
  | (k', v) :: rest =>
    if k' = k then (some v, rest)
    else
      let r := dictPop k rest
      (r.1, (k', v) :: r.2)

/-- Embedding of the `SessionManager` state, `server.py` lines 141-145:
the `sessions` dict and the configured `max_sessions`. -/
structure SessionManager where
  sessions : List (String × VoiceSession)
  max_sessions : Nat
deriving Repr

/-- An empty registry, as built by `SessionManager.__init__`. -/
def SessionManager.init (max_sessions : Nat) : SessionManager :=
  { sessions := [], max_sessions := max_sessions }

/-- Embedding of the `active_count` property, `server.py` lines 200-202. -/
def SessionManager.active_count (m : SessionManager) : Nat :=
  m.sessions.countP (fun s => s.2.is_active)

/-- Embedding of `SessionManager.create`, `server.py` lines 147-161.
`new_id` stands for the generated `uuid.uuid4()`. -/
def SessionManager.create (now : Int) (new_id : String) (persona : String)
    (m : SessionManager) : Except String (VoiceSession × SessionManager) :=
  let active := m.sessions.countP (fun s => s.2.is_active)
  if m.max_sessions ≤ active then
    Except.error "Server at capacity"
  else
    let session : VoiceSession :=
      { session_id := new_id
        persona := persona
        created_at := now
        transcript := []
        audio_chunks_in := 0
        audio_chunks_out := 0
        is_active := true
        last_activity := now }
    Except.ok (session, { m with sessions := dictSet new_id session m.sessions })

/-- Embedding of `SessionManager.get`, `server.py` lines 163-164. -/
def SessionManager.get (session_id : String) (m : SessionManager) : Option VoiceSession :=
  dictGet session_id m.sessions

/-- Embedding of the summary dict built by `SessionManager.end`,
`server.py` lines 175-183. -/
structure SessionSummary where
  session_id : String
  persona : String
  duration_seconds : Int
  turn_count : Nat
  transcript : List TranscriptTurn
  audio_chunks_in : Nat
  audio_chunks_out : Nat
deriving DecidableEq, Repr

/-- Embedding of `SessionManager.end`, `server.py` lines 166-185: pop the
session; on absence return `none`; otherwise mark it inactive, compute the
duration from the clock and return the summary. -/
def SessionManager.end_ (now : Int) (session_id : String) (m : SessionManager) :
    Option SessionSummary × SessionManager :=
  match dictPop session_id m.sessions with
  | (none, _) => (none, m)
  | (some session, rest) =>
    let ended := { session with is_active := false }
    let duration := now - ended.created_at
    (some
      { session_id := session_id
        persona := ended.persona
        duration_seconds := duration
        turn_count := ended.transcript.length
        transcript := ended.transcript
        audio_chunks_in := ended.audio_chunks_in
        audio_chunks_out := ended.audio_chunks_out },
      { m with sessions := rest })

/-- Embedding of `SessionManager.cleanup_stale`, `server.py` lines 187-198:
delete every session idle longer than `timeout_sec`, return how many. -/
def SessionManager.cleanup_stale (now : Int) (timeout_sec : Int) (m : SessionManager) :
    Nat × SessionManager :=
  let stale := m.sessions.filter (fun s => decide (timeout_sec < now - s.2.last_activity))
  (stale.length,
    { m with sessions := m.sessions.filter (fun s => !decide (timeout_sec < now - s.2.last_activity)) })

/-- One state-mutating call on the shared `SessionManager`. -/
inductive SMOp where
  | create (now : Int) (new_id : String) (persona : String)
  | end_call (now : Int) (session_id : String)
  | cleanup (now : Int) (timeout_sec : Int)
deriving Repr

/-- Effect of one call on the registry; a `create` rejected for capacity
raises before mutating, so the state is unchanged. -/
def SMOp.apply (op : SMOp) (m : SessionManager) : SessionManager :=
  match op with
  | .create now nid p =>
    match SessionManager.create now nid p m with
    | .error _ => m
    | .ok r => r.2
  | .end_call now sid => (SessionManager.end_ now sid m).2
  | .cleanup now t => (SessionManager.cleanup_stale now t m).2

/-- Run a sequence of calls from a given registry state. -/
def runSM (ops : List SMOp) (m : SessionManager) : SessionManager :=
  ops.foldl (fun acc op => op.apply acc) m

-- Basic lemmas about the dict model.

theorem dictSet_mem {α : Type} {k : String} {v : α} {l : List (String × α)} {x : String × α}
    (hx : x ∈ dictSet k v l) : x = (k, v) ∨ x ∈ l := by
  induction l with
  | nil => simpa [dictSet] using hx
  | cons p rest ih =>
    by_cases h : p.1 = k
    · simp only [dictSet, h, if_pos] at hx
      rcases List.mem_cons.mp hx with h1 | h1
      · exact Or.inl h1
      · exact Or.inr (List.mem_cons_of_mem _ h1)
    · simp only [dictSet, h, if_neg, not_false_iff] at hx
      rcases List.mem_cons.mp hx with h1 | h1
      · exact Or.inr (h1 ▸ List.mem_cons_self _ _)
      · rcases ih h1 with h2 | h2
        · exact Or.inl h2
        · exact Or.inr (List.mem_cons_of_mem _ h2)

theorem dictSet_fresh {α : Type} {k : String} (v : α) {l : List (String × α)}
    (h : ∀ p ∈ l, p.1 ≠ k) : dictSet k v l = l ++ [(k, v)] := by
  induction l with
  | nil => simp [dictSet]
  | cons p rest ih =>
    have hp : p.1 ≠ k := h p (List.mem_cons_self _ _)
    simp only [dictSet, hp, if_neg, not_false_iff, List.cons_append, List.cons.injEq, true_and]
    exact ih (fun q hq => h q (List.mem_cons_of_mem _ hq))

theorem dictSet_countP_le {α : Type} (p : String × α → Bool) (k : String) (v : α)
    (l : List (String × α)) : (dictSet k v l).countP p ≤ l.countP p + 1 := by
  induction l with
  | nil =>
    simp only [dictSet, List.countP_cons, List.countP_nil, Nat.zero_add]
    cases hp : p (k, v) <;> simp [hp]
  | cons q rest ih =>
    obtain ⟨qk, qv⟩ := q
    by_cases h : qk = k
    · simp only [dictSet, h, if_pos]
      simp only [List.countP_cons]
      cases hp : p (k, v) <;> cases hq : p (qk, qv) <;> simp [hp, hq, h] <;> omega
    · simp only [dictSet, h, if_neg, not_false_iff]
      simp only [List.countP_cons]
      omega

theorem dictPop_snd_sublist {α : Type} (k : String) (l : List (String × α)) :
    List.Sublist (dictPop k l).2 l := by
  induction l with
  | nil => simp [dictPop]
  | cons p rest ih =>
    by_cases h : p.1 = k
    · simp only [dictPop, h, if_pos]
      exact List.sublist_cons_self _ _
    · simp only [dictPop, h, if_neg, not_false_iff]
      exact List.Sublist.cons₂ _ ih

theorem dictPop_none_of_not_mem {α : Type} {k : String} {l : List (String × α)}
    (h : ∀ p ∈ l, p.1 ≠ k) : dictPop k l = (none, l) := by
  induction l with
  | nil => simp [dictPop]
  | cons p rest ih =>
    have hp : p.1 ≠ k := h p (List.mem_cons_self _ _)
    have hr := ih (fun q hq => h q (List.mem_cons_of_mem _ hq))
    simp [dictPop, hp, hr]

theorem dictGet_none_iff {α : Type} {k : String} {l : List (String × α)} :
    dictGet k l = none ↔ ∀ p ∈ l, p.1 ≠ k := by
  induction l with
  | nil => simp [dictGet]
  | cons p rest ih =>
    obtain ⟨pk, pv⟩ := p
    by_cases h : pk = k
    · subst h
      constructor
      · intro hc
        exact absurd hc (by simp [dictGet])
      · intro hall
        exact absurd rfl (hall (pk, pv) (List.mem_cons_self _ _))
    · simp only [dictGet, h, if_neg, not_false_iff, ih, List.mem_cons]
      constructor
      · rintro hr q (rfl | hq)
        · exact h
        · exact hr q hq
      · intro hr q hq
        exact hr q (Or.inr hq)

theorem dictPop_fst_eq_dictGet {α : Type} (k : String) (l : List (String × α)) :
    (dictPop k l).1 = dictGet k l := by
  induction l with
  | nil => simp [dictPop, dictGet]
  | cons p rest ih =>
    obtain ⟨pk, pv⟩ := p
    by_cases h : pk = k <;> simp [dictPop, dictGet, h, ih]

theorem dictGet_dictPop_of_nodup {α : Type} {k : String} {l : List (String × α)}
    (h : (l.map Prod.fst).Nodup) : dictGet k (dictPop k l).2 = none := by
  induction l with
  | nil => simp [dictPop, dictGet]
  | cons p rest ih =>
    obtain ⟨pk, pv⟩ := p
    simp only [List.map_cons, List.nodup_cons] at h
    by_cases hk : pk = k
    · simp only [dictPop, hk, if_pos]
      refine dictGet_none_iff.mpr (fun q hq hqk => ?_)
      apply h.1
      have hm : q.1 ∈ rest.map Prod.fst := List.mem_map_of_mem Prod.fst hq
      rw [hqk, ← hk] at hm
      exact hm
    · simp only [dictPop, hk, if_neg, not_false_iff]
      simp [dictGet, hk, ih h.2]

theorem dictGet_dictPop_ne {α : Type} {k k' : String} (hne : k' ≠ k) (l : List (String × α)) :
    dictGet k' (dictPop k l).2 = dictGet k' l := by
  induction l with
  | nil => simp [dictPop, dictGet]
  | cons p rest ih =>
    obtain ⟨pk, pv⟩ := p
    by_cases hk : pk = k
    · have h2 : pk ≠ k' := fun hc => hne (hc.symm.trans hk)
      have h3 : ¬ k = k' := fun hc => hne hc.symm
      simp [dictPop, dictGet, hk, h2, h3]
    · simp [dictPop, dictGet, hk, ih]

theorem dictGet_dictSet_self {α : Type} (k : String) (v : α) (l : List (String × α)) :
    dictGet k (dictSet k v l) = some v := by
  induction l with
  | nil => simp [dictSet, dictGet]
  | cons p rest ih =>
    obtain ⟨pk, pv⟩ := p
    by_cases h : pk = k <;> simp [dictSet, dictGet, h, ih]

theorem dictGet_dictSet_ne {α : Type} {k k' : String} (hne : k' ≠ k) (v : α)
    (l : List (String × α)) : dictGet k' (dictSet k v l) = dictGet k' l := by
  induction l with
  | nil =>
    have h3 : ¬ k = k' := fun hc => hne hc.symm
    simp [dictSet, dictGet, h3]
  | cons p rest ih =>
    obtain ⟨pk, pv⟩ := p
    by_cases h : pk = k
    · have h2 : pk ≠ k' := fun hc => hne (hc.symm.trans h)
      have h3 : ¬ k = k' := fun hc => hne hc.symm
      simp [dictSet, dictGet, h, h2, h3]
    · simp [dictSet, dictGet, h, ih]

theorem dictSet_keys_nodup {α : Type} {k : String} {v : α} {l : List (String × α)}
    (h : (l.map Prod.fst).Nodup) : ((dictSet k v l).map Prod.fst).Nodup := by
  induction l with
  | nil => simp [dictSet]
  | cons p rest ih =>
    simp only [List.map_cons, List.nodup_cons] at h
    by_cases hk : p.1 = k
    · simp only [dictSet, hk, if_pos, List.map_cons, List.nodup_cons]
      exact ⟨hk ▸ h.1, h.2⟩
    · simp only [dictSet, hk, if_neg, not_false_iff, List.map_cons, List.nodup_cons]
      refine ⟨fun hc => ?_, ih h.2⟩
      rcases List.mem_map.mp hc with ⟨q, hq, hq1⟩
      rcases dictSet_mem hq with rfl | hq2
      · exact hk hq1.symm
      · exact h.1 (hq1 ▸ List.mem_map_of_mem Prod.fst hq2)

theorem dictPop_append_fresh {α : Type} {k : String} (v : α) {l : List (String × α)}
    (h : ∀ p ∈ l, p.1 ≠ k) : dictPop k (l ++ [(k, v)]) = (some v, l) := by
  induction l with
  | nil => simp [dictPop]
  | cons p rest ih =>
    have hp : p.1 ≠ k := h p (List.mem_cons_self _ _)
    have hr := ih (fun q hq => h q (List.mem_cons_of_mem _ hq))
    simp [dictPop, hp, hr]

-- The `/infer` endpoint and the websocket audio/control handlers.

/-- Embedding of `ModelManager.process_audio`, `server.py` lines 285-295:
bump the inbound counter, refresh `last_activity`, return no immediate
audio (full-duplex mode). -/
def ModelManager.process_audio (now : Int) (audio_chunk : List Nat) (session : VoiceSession) :
    Option (List Nat) × VoiceSession :=
  let session' :=
    { session with audio_chunks_in := session.audio_chunks_in + 1, last_activity := now }
  (none, session')

/-- One inbound websocket message while the connection is in its main
(ACTIVE) loop, `server.py` lines 487-516. -/
inductive WsIncoming where
  | audioFrame (chunk : List Nat)
  | controlTranscript (speaker text timestamp : String)
  | controlEnd
  | controlOther
  | disconnect
deriving Repr

/-- Embedding of one iteration of the websocket main loop over the session
it drives, `server.py` lines 480-516: the updated session and whether the
loop breaks (the `finally` block then ends the session). Oversized audio
frames hit the `continue` at line 492. -/
def ws_active_step (now : Int) (max_chunk : Nat) (s : VoiceSession) :
    WsIncoming → VoiceSession × Bool
  | .audioFrame chunk =>
    if max_chunk < chunk.length then (s, false)
    else
      let r := ModelManager.process_audio now chunk s
      match r.1 with
      | some _ => ({ r.2 with audio_chunks_out := r.2.audio_chunks_out + 1 }, false)
      | none => (r.2, false)
  | .controlTranscript sp tx ts =>
    ({ s with transcript := s.transcript ++ [(⟨sp, tx, ts⟩ : TranscriptTurn)] }, false)
  | .controlEnd => (s, true)
  | .controlOther => (s, false)
  | .disconnect => (s, true)

/-- Python `session.transcript.append(...)` mutates the object held in the
registry; in the embedding the registry entry is updated in place. -/
def appendTurn (sid : String) (turn : TranscriptTurn)
    (sessions : List (String × VoiceSession)) : List (String × VoiceSession) :=
  sessions.map (fun p =>
    if p.1 = sid then (p.1, { p.2 with transcript := p.2.transcript ++ [turn] }) else p)

/-- Embedding of the `/infer` endpoint body, `server.py` lines 389-420.
The awaited `model_manager.infer_text` call is the opaque inference
boundary; `inferOutcome` is its result: `Except.ok (intent, response_text)`
or a raised fault.  The `finally` block always ends the created session, on
the success path and on a fault alike.  The returned pair is the endpoint
outcome and the final registry state. -/
def text_inference (now : Int) (new_id : String) (text persona : String)
    (inferOutcome : Except String (String × String)) (m : SessionManager) :
    Except String (String × String) × SessionManager :=
  match SessionManager.create now new_id persona m with
  | Except.error e => (Except.error e, m)
  | Except.ok (session, m1) =>
    match inferOutcome with
    | Except.error e =>
      let r := SessionManager.end_ now session.session_id m1
      (Except.error e, r.2)
    | Except.ok (intent, response_text) =>
      let turn1 : TranscriptTurn := ⟨"user", text, toString now⟩
      let turn2 : TranscriptTurn := ⟨"assistant", response_text, toString now⟩
      let m2 := { m1 with sessions := appendTurn session.session_id turn1 m1.sessions }
      let m3 := { m2 with sessions := appendTurn session.session_id turn2 m2.sessions }
      let r := SessionManager.end_ now session.session_id m3
      (Except.ok (intent, response_text), r.2)

-- Invariant lemmas for the session registry.

/-- Every session stored in the registry is flagged active. -/
def AllActive (m : SessionManager) : Prop :=
  ∀ p ∈ m.sessions, p.2.is_active = true

/-- The session record built on admission, `server.py` lines 154-158. -/
def newSession (now : Int) (new_id : String) (persona : String) : VoiceSession :=
  { session_id := new_id
    persona := persona
    created_at := now
    transcript := []
    audio_chunks_in := 0
    audio_chunks_out := 0
    is_active := true
    last_activity := now }

theorem create_cases (now : Int) (nid persona : String) (m : SessionManager) :
    (m.max_sessions ≤ m.active_count ∧
      SessionManager.create now nid persona m = Except.error "Server at capacity")
    ∨ (m.active_count < m.max_sessions ∧
      SessionManager.create now nid persona m =
        Except.ok (newSession now nid persona,
          { m with sessions := dictSet nid (newSession now nid persona) m.sessions })) := by
  simp only [SessionManager.create, SessionManager.active_count, newSession]
  by_cases h : m.max_sessions ≤ m.sessions.countP (fun s => s.2.is_active)
  · exact Or.inl ⟨h, by rw [if_pos h]⟩
  · exact Or.inr ⟨Nat.lt_of_not_le h, by rw [if_neg h]⟩

theorem end_cases (now : Int) (sid : String) (m : SessionManager) :
    (dictGet sid m.sessions = none ∧ SessionManager.end_ now sid m = (none, m))
    ∨ (∃ s, dictGet sid m.sessions = some s ∧
        SessionManager.end_ now sid m =
          (some
            { session_id := sid
              persona := s.persona
              duration_seconds := now - s.created_at
              turn_count := s.transcript.length
              transcript := s.transcript
              audio_chunks_in := s.audio_chunks_in
              audio_chunks_out := s.audio_chunks_out },
            { m with sessions := (dictPop sid m.sessions).2 })) := by
  rcases hd : dictPop sid m.sessions with ⟨v, rest⟩
  have hg : dictGet sid m.sessions = v := by
    rw [← dictPop_fst_eq_dictGet, hd]
  cases v with
  | none => exact Or.inl ⟨hg, by simp [SessionManager.end_, hd]⟩
  | some s =>
    refine Or.inr ⟨s, hg, ?_⟩
    simp [SessionManager.end_, hd]

theorem apply_max_sessions (op : SMOp) (m : SessionManager) :
    (op.apply m).max_sessions = m.max_sessions := by
  cases op with
  | create now nid p =>
    rcases create_cases now nid p m with ⟨_, hc⟩ | ⟨_, hc⟩ <;>
      simp [SMOp.apply, hc]
  | end_call now sid =>
    rcases end_cases now sid m with ⟨_, hc⟩ | ⟨s, _, hc⟩ <;>
      simp [SMOp.apply, hc]
  | cleanup now t => rfl

theorem allActive_apply {m : SessionManager} (h : AllActive m) (op : SMOp) :
    AllActive (op.apply m) := by
  cases op with
  | create now nid persona =>
    rcases create_cases now nid persona m with ⟨_, hc⟩ | ⟨_, hc⟩
    · simpa [SMOp.apply, hc] using h
    · simp only [SMOp.apply, hc]
      intro p hp
      rcases dictSet_mem hp with rfl | hp2
      · rfl
      · exact h p hp2
  | end_call now sid =>
    rcases end_cases now sid m with ⟨_, hc⟩ | ⟨s, _, hc⟩
    · simpa [SMOp.apply, hc] using h
    · simp only [SMOp.apply, hc]
      intro p hp
      exact h p ((dictPop_snd_sublist sid m.sessions).subset hp)
  | cleanup now t =>
    intro p hp
    simp only [SMOp.apply, SessionManager.cleanup_stale] at hp
    exact h p (List.mem_of_mem_filter hp)

theorem active_count_apply_le {m : SessionManager} (op : SMOp)
    (h : m.active_count ≤ m.max_sessions) :
    (op.apply m).active_count ≤ m.max_sessions := by
  cases op with
  | create now nid persona =>
    rcases create_cases now nid persona m with ⟨_, hc⟩ | ⟨hlt, hc⟩
    · simpa [SMOp.apply, hc] using h
    · simp only [SMOp.apply, hc, SessionManager.active_count]
      have h1 := dictSet_countP_le (fun s => s.2.is_active) nid
        (newSession now nid persona) m.sessions
      simp only [SessionManager.active_count] at hlt
      omega
  | end_call now sid =>
    rcases end_cases now sid m with ⟨_, hc⟩ | ⟨s, _, hc⟩
    · simpa [SMOp.apply, hc] using h
    · simp only [SMOp.apply, hc, SessionManager.active_count]
      exact le_trans ((dictPop_snd_sublist sid m.sessions).countP_le _) h
  | cleanup now t =>
    simp only [SMOp.apply, SessionManager.cleanup_stale, SessionManager.active_count]
    exact le_trans ((List.filter_sublist _).countP_le _) h

theorem runSM_cons (op : SMOp) (ops : List SMOp) (m : SessionManager) :
    runSM (op :: ops) m = runSM ops (op.apply m) := rfl

theorem runSM_max_sessions (ops : List SMOp) (m : SessionManager) :
    (runSM ops m).max_sessions = m.max_sessions := by
  induction ops generalizing m with
  | nil => rfl
  | cons op rest ih => rw [runSM_cons, ih, apply_max_sessions]

theorem runSM_active_count_le (ops : List SMOp) {m : SessionManager}
    (h : m.active_count ≤ m.max_sessions) :
    (runSM ops m).active_count ≤ m.max_sessions := by
  induction ops generalizing m with
  | nil => exact h
  | cons op rest ih =>
    rw [runSM_cons]
    have h1 := active_count_apply_le op h
    have h2 := ih (m := op.apply m) (by rw [apply_max_sessions]; exact h1)
    rw [apply_max_sessions] at h2
    exact h2

theorem runSM_allActive (ops : List SMOp) {m : SessionManager} (h : AllActive m) :
    AllActive (runSM ops m) := by
  induction ops generalizing m with
  | nil => exact h
  | cons op rest ih => exact ih (allActive_apply h op)

theorem appendTurn_fresh {sid : String} (t : TranscriptTurn) (s : VoiceSession)
    {l : List (String × VoiceSession)} (h : ∀ p ∈ l, p.1 ≠ sid) :
    appendTurn sid t (l ++ [(sid, s)])
      = l ++ [(sid, { s with transcript := s.transcript ++ [t] })] := by
  induction l with
  | nil => simp [appendTurn]
  | cons p rest ih =>
    have hp : p.1 ≠ sid := h p (List.mem_cons_self _ _)
    have hr := ih (fun q hq => h q (List.mem_cons_of_mem _ hq))
    simp only [appendTurn, List.cons_append, List.map_cons, hp, if_neg, not_false_iff]
    simp only [appendTurn] at hr
    rw [hr]

/-- C1: `create` fails (capacity exceeded) exactly when the number of
active sessions has reached the configured maximum; a rejected `create`
leaves the registry unchanged; a successful `create` with a fresh id
registers exactly one new session; and over every sequence of
create/end/cleanup_stale calls starting from an empty registry,
`active_count` never exceeds the configured maximum. -/
theorem C1_create_capacity_control :
    (∀ (m : SessionManager) (now : Int) (nid persona : String),
      (∃ e, SessionManager.create now nid persona m = Except.error e) ↔
        m.max_sessions ≤ m.active_count)
    ∧ (∀ (m : SessionManager) (now : Int) (nid persona : String),
        m.max_sessions ≤ m.active_count → (SMOp.create now nid persona).apply m = m)
    ∧ (∀ (m : SessionManager) (now : Int) (nid persona : String) (s : VoiceSession)
        (m' : SessionManager), (∀ p ∈ m.sessions, p.1 ≠ nid) →
        SessionManager.create now nid persona m = Except.ok (s, m') →
          m'.sessions = m.sessions ++ [(nid, s)] ∧
          m'.active_count = m.active_count + 1)
    ∧ (∀ (ops : List SMOp) (maxS : Nat),
        (runSM ops (SessionManager.init maxS)).active_count ≤ maxS) := by
  refine ⟨?_, ?_, ?_, ?_⟩
  · intro m now nid persona
    rcases create_cases now nid persona m with ⟨hle, hc⟩ | ⟨hlt, hc⟩
    · exact ⟨fun _ => hle, fun _ => ⟨_, hc⟩⟩
    · constructor
      · rintro ⟨e, he⟩
        rw [hc] at he
        cases he
      · intro hle
        exact absurd hlt (Nat.not_lt.mpr hle)
  · intro m now nid persona hle
    rcases create_cases now nid persona m with ⟨_, hc⟩ | ⟨hlt, hc⟩
    · simp [SMOp.apply, hc]
    · exact absurd hlt (Nat.not_lt.mpr hle)
  · intro m now nid persona s m' hfresh hok
    rcases create_cases now nid persona m with ⟨_, hc⟩ | ⟨hlt, hc⟩
    · rw [hc] at hok; cases hok
    · rw [hc] at hok
      injection hok with hok
      have h1 : newSession now nid persona = s := congrArg Prod.fst hok
      have h2 : ({ m with sessions := dictSet nid (newSession now nid persona) m.sessions }
          : SessionManager) = m' := congrArg Prod.snd hok
      subst h1
      subst h2
      constructor
      · exact dictSet_fresh _ hfresh
      · simp only [SessionManager.active_count,
          dictSet_fresh (newSession now nid persona) hfresh, List.countP_append]
        simp [newSession]
  · intro ops maxS
    have h0 : (SessionManager.init maxS).active_count ≤ (SessionManager.init maxS).max_sessions := by
      simp [SessionManager.init, SessionManager.active_count]
    have h := runSM_active_count_le ops h0
    simpa [SessionManager.init] using h

/-- Witness for C1 at concrete inputs: a registry at capacity 0 rejects a
create without change of state, and a fresh create into capacity 1 appends
exactly one active session. -/
theorem C1_create_capacity_control_witness :
    (SMOp.create 5 "a" "default").apply (SessionManager.init 0) = SessionManager.init 0
    ∧ ({ sessions := [("b", newSession 7 "b" "support")], max_sessions := 1 }
        : SessionManager).sessions
      = (SessionManager.init 1).sessions ++ [("b", newSession 7 "b" "support")]
    ∧ ({ sessions := [("b", newSession 7 "b" "support")], max_sessions := 1 }
        : SessionManager).active_count
      = (SessionManager.init 1).active_count + 1 := by
  refine ⟨C1_create_capacity_control.2.1 (SessionManager.init 0) 5 "a" "default" (by decide),
    ?_, ?_⟩
  · exact (C1_create_capacity_control.2.2.1 (SessionManager.init 1) 7 "b" "support"
      (newSession 7 "b" "support")
      ({ sessions := [("b", newSession 7 "b" "support")], max_sessions := 1 })
      (by intro p hp; cases hp) rfl).1
  · exact (C1_create_capacity_control.2.2.1 (SessionManager.init 1) 7 "b" "support"
      (newSession 7 "b" "support")
      ({ sessions := [("b", newSession 7 "b" "support")], max_sessions := 1 })
      (by intro p hp; cases hp) rfl).2

/-- C9: in every registry state reachable by create/end/cleanup_stale calls
from an empty registry, every stored session has `is_active = true`, so
`active_count` equals the number of sessions in the registry. -/
theorem C9_registry_all_active (ops : List SMOp) (maxS : Nat) :
    (∀ p ∈ (runSM ops (SessionManager.init maxS)).sessions, p.2.is_active = true)
    ∧ (runSM ops (SessionManager.init maxS)).active_count
      = (runSM ops (SessionManager.init maxS)).sessions.length := by
  have h1 : AllActive (runSM ops (SessionManager.init maxS)) :=
    runSM_allActive ops (by intro p hp; cases hp)
  exact ⟨h1, List.countP_eq_length.mpr h1⟩

/-- Witness for C9 at a concrete trace: after one create, the stored
session is active and `active_count` matches the registry size. -/
theorem C9_registry_all_active_witness :
    (newSession 0 "a" "default").is_active = true
    ∧ (runSM [SMOp.create 0 "a" "default"] (SessionManager.init 2)).active_count
      = (runSM [SMOp.create 0 "a" "default"] (SessionManager.init 2)).sessions.length := by
  constructor
  · exact (C9_registry_all_active [SMOp.create 0 "a" "default"] 2).1
      ("a", newSession 0 "a" "default") (by decide)
  · exact (C9_registry_all_active [SMOp.create 0 "a" "default"] 2).2

/-- C2: for a registered id, the first `end` pops the session and returns a
summary whose duration is `now - created_at` and whose `turn_count` is the
number of transcript turns recorded so far; afterwards the id resolves to
nothing and every further `end` for it returns `none` without touching the
registry. -/
theorem C2_end_idempotent (m : SessionManager) (now now2 : Int) (sid : String) :
    ((m.sessions.map Prod.fst).Nodup →
      ∀ s, SessionManager.get sid m = some s →
        ∃ summ m', SessionManager.end_ now sid m = (some summ, m')
          ∧ summ.duration_seconds = now - s.created_at
          ∧ summ.turn_count = s.transcript.length
          ∧ SessionManager.get sid m' = none
          ∧ SessionManager.end_ now2 sid m' = (none, m'))
    ∧ (SessionManager.get sid m = none → SessionManager.end_ now sid m = (none, m)) := by
  constructor
  · intro hnd s hs
    rcases end_cases now sid m with ⟨hg, _⟩ | ⟨s', hg, hc⟩
    · rw [SessionManager.get] at hs
      rw [hs] at hg
      cases hg
    · rw [SessionManager.get, hg] at hs
      injection hs with hs
      subst hs
      refine ⟨_, _, hc, rfl, rfl, ?_, ?_⟩
      · show dictGet sid (dictPop sid m.sessions).2 = none
        exact dictGet_dictPop_of_nodup hnd
      · have hnone : dictGet sid (dictPop sid m.sessions).2 = none :=
          dictGet_dictPop_of_nodup hnd
        rcases end_cases now2 sid { m with sessions := (dictPop sid m.sessions).2 } with
          ⟨_, hc2⟩ | ⟨s2, hg2, _⟩
        · exact hc2
        · rw [show ({ m with sessions := (dictPop sid m.sessions).2 }
            : SessionManager).sessions = (dictPop sid m.sessions).2 from rfl] at hg2
          rw [hnone] at hg2
          cases hg2
  · intro hs
    rcases end_cases now sid m with ⟨_, hc⟩ | ⟨s', hg, _⟩
    · exact hc
    · rw [SessionManager.get] at hs
      rw [hs] at hg
      cases hg

/-- Witness for C2: a one-session registry, ended twice. -/
theorem C2_end_idempotent_witness :
    SessionManager.get "x"
        ({ sessions := [], max_sessions := 4 } : SessionManager) = none
    ∧ SessionManager.end_ 11 "x" ({ sessions := [], max_sessions := 4 } : SessionManager)
      = (none, { sessions := [], max_sessions := 4 }) := by
  have h := (C2_end_idempotent
      { sessions := [("x", newSession 3 "x" "default")], max_sessions := 4 } 10 11 "x").1
    (by decide) (newSession 3 "x" "default") rfl
  rcases h with ⟨summ, m', h1, _, _, h4, h5⟩
  have hm : m' = ({ sessions := [], max_sessions := 4 } : SessionManager) :=
    (congrArg Prod.snd h1).symm
  rw [hm] at h4 h5
  exact ⟨h4, h5⟩

/-- C8: in the ACTIVE loop an audio frame strictly larger than the
configured maximum chunk size is dropped, leaving the session (counters,
transcript, `last_activity`) untouched and the loop running; a frame at or
below the maximum bumps the inbound counter and refreshes `last_activity`
without terminating the loop. -/
theorem C8_oversized_audio_dropped (now : Int) (max_chunk : Nat) (s : VoiceSession)
    (chunk : List Nat) :
    (max_chunk < chunk.length →
      ws_active_step now max_chunk s (WsIncoming.audioFrame chunk) = (s, false))
    ∧ (chunk.length ≤ max_chunk →
      ws_active_step now max_chunk s (WsIncoming.audioFrame chunk)
        = ({ s with audio_chunks_in := s.audio_chunks_in + 1, last_activity := now },
           false)) := by
  constructor
  · intro h
    simp [ws_active_step, h]
  · intro h
    simp [ws_active_step, Nat.not_lt.mpr h, ModelManager.process_audio]

/-- Witness for C8: a 3-byte frame against a 2-byte limit is dropped; the
same frame against a 3-byte limit is counted. -/
theorem C8_oversized_audio_dropped_witness :
    ws_active_step 9 2 (newSession 0 "a" "default") (WsIncoming.audioFrame [1, 2, 3])
      = (newSession 0 "a" "default", false)
    ∧ ws_active_step 9 3 (newSession 0 "a" "default") (WsIncoming.audioFrame [1, 2, 3])
      = ({ newSession 0 "a" "default" with audio_chunks_in := 1, last_activity := 9 },
         false) := by
  constructor
  · exact (C8_oversized_audio_dropped 9 2 (newSession 0 "a" "default") [1, 2, 3]).1
      (by decide)
  · have h := (C8_oversized_audio_dropped 9 3 (newSession 0 "a" "default") [1, 2, 3]).2
      (by decide)
    rw [h]
    rfl

/-- C10: whenever the `/infer` handler manages to create a session, the
`finally` block ends it before the handler returns, on the success path
and when the inference call faults alike; the registry comes back to its
pre-call state, so `active_count` is preserved and no capacity leaks. -/
theorem C10_infer_releases_session (m : SessionManager) (now : Int)
    (nid text persona : String) (outcome : Except String (String × String))
    (hfresh : ∀ p ∈ m.sessions, p.1 ≠ nid) :
    (text_inference now nid text persona outcome m).2 = m
    ∧ ((text_inference now nid text persona outcome m).2).active_count = m.active_count
    ∧ SessionManager.get nid (text_inference now nid text persona outcome m).2 = none := by
  have hget : SessionManager.get nid m = none := by
    rw [SessionManager.get]
    exact dictGet_none_iff.mpr hfresh
  have hm1 : dictSet nid (newSession now nid persona) m.sessions
      = m.sessions ++ [(nid, newSession now nid persona)] := dictSet_fresh _ hfresh
  have hmain : (text_inference now nid text persona outcome m).2 = m := by
    rcases create_cases now nid persona m with ⟨_, hc⟩ | ⟨_, hc⟩
    · simp [text_inference, hc]
    · rcases outcome with e | ⟨intent, resp⟩
      · simp only [text_inference, hc]
        show (SessionManager.end_ now (newSession now nid persona).session_id
          { m with sessions := dictSet nid (newSession now nid persona) m.sessions }).2 = m
        rw [show (newSession now nid persona).session_id = nid from rfl]
        simp only [SessionManager.end_, hm1, dictPop_append_fresh _ hfresh]
      · simp only [text_inference, hc]
        simp only [show (newSession now nid persona).session_id = nid from rfl]
        rw [hm1, appendTurn_fresh _ _ hfresh, appendTurn_fresh _ _ hfresh]
        simp only [SessionManager.end_, dictPop_append_fresh _ hfresh]
  exact ⟨hmain, by rw [hmain], by rw [hmain]; exact hget⟩

/-- Witness for C10: against an empty registry, a faulting inference and a
successful one both leave the registry as it was. -/
theorem C10_infer_releases_session_witness :
    (text_inference 4 "n1" "merhaba" "default" (Except.error "boom")
      (SessionManager.init 2)).2 = SessionManager.init 2
    ∧ (text_inference 4 "n1" "merhaba" "default" (Except.ok ("unknown", "tamam"))
      (SessionManager.init 2)).2 = SessionManager.init 2 := by
  constructor
  · exact (C10_infer_releases_session (SessionManager.init 2) 4 "n1" "merhaba" "default"
      (Except.error "boom") (by intro p hp; cases hp)).1
  · exact (C10_infer_releases_session (SessionManager.init 2) 4 "n1" "merhaba" "default"
      (Except.ok ("unknown", "tamam")) (by intro p hp; cases hp)).1

-- The context injection sidecar (`context_api.py`).

/-- Embedding of the `ContextPayload` schema, `context_api.py` lines 50-57;
the free-form `data` mapping is modelled as string key/value pairs. -/
structure ContextPayload where
  session_id : String
  type : String
  data : List (String × String)
  priority : String
  ttl_seconds : Option Int
  source : String
deriving DecidableEq, Repr

/-- Embedding of `ContextEntry`, `context_api.py` lines 89-99; `id` stands
for the generated `uuid.uuid4()` and `created_at` for `time.time()`. -/
structure ContextEntry where
  id : String
  session_id : String
  type : String
  data : List (String × String)
  priority : String
  source : String
  created_at : Int
  ttl : Int
  accessed_count : Nat
deriving DecidableEq, Repr

/-- Embedding of the `is_expired` property, `context_api.py` lines 101-103:
`(time.time() - created_at) > ttl`. -/
def ContextEntry.is_expired (now : Int) (e : ContextEntry) : Bool :=
  decide (e.ttl < now - e.created_at)

/-- Embedding of `ContextEntry.__init__`, `context_api.py` lines 90-99. -/
def mkEntry (new_id : String) (now : Int) (payload : ContextPayload) (ttl : Int) :
    ContextEntry :=
  { id := new_id
    session_id := payload.session_id
    type := payload.type
    data := payload.data
    priority := payload.priority
    source := payload.source
    created_at := now
    ttl := ttl
    accessed_count := 0 }

/-- One record of the side-channel event log, `context_api.py` lines
176-183. -/
structure EventRecord where
  event : String
  timestamp : String
  data : List (String × String)
  customer_phone : Option String
  customer_name : Option String
  agent_id : Option String
deriving DecidableEq, Repr

/-- Embedding of the `ContextStore` state, `context_api.py` lines 118-124. -/
structure ContextStore where
  _store : List (String × List ContextEntry)
  _events : List (String × List EventRecord)
deriving Repr

/-- An empty store, as built by `ContextStore.__init__`. -/
def ContextStore.init : ContextStore :=
  { _store := [], _events := [] }

/-- Embedding of Python `payload.ttl_seconds or default_ttl` at
`context_api.py` line 128: both `None` and `0` are falsy, so both fall
back to the default. -/
def ttlOrDefault (ttl_seconds : Option Int) (default_ttl : Int) : Int :=
  match ttl_seconds with
  | none => default_ttl
  | some t => if t = 0 then default_ttl else t

/-- Embedding of `ContextStore.add_context`, `context_api.py` lines
126-139: append the new entry to the session's bucket, creating the
bucket when absent. -/
def ContextStore.add_context (payload : ContextPayload) (default_ttl : Int)
    (now : Int) (new_id : String) (s : ContextStore) : ContextEntry × ContextStore :=
  let ttl := ttlOrDefault payload.ttl_seconds default_ttl
  let entry := mkEntry new_id now payload ttl
  let bucket := (dictGet payload.session_id s._store).getD []
  (entry, { s with _store := dictSet payload.session_id (bucket ++ [entry]) s._store })

/-- The two `continue` filters of the `get_context` loop, `context_api.py`
lines 151-155: skip expired entries unless `include_expired`, and skip
entries outside a non-empty `types` filter (a `None` or empty list is
falsy and filters nothing). -/
def passesFilters (now : Int) (types : Option (List String)) (include_expired : Bool)
    (e : ContextEntry) : Bool :=
  (include_expired || !(e.is_expired now)) &&
  (match types with
   | none => true
   | some ts => if ts.isEmpty then true else ts.contains e.type)

/-- Embedding of `priority_order.get(x["priority"], 2)` with
`priority_order = {"urgent": 0, "high": 1, "normal": 2}`, `context_api.py`
lines 160-161. -/
def priorityKey (p : String) : Nat :=
  if p = "urgent" then 0 else if p = "high" then 1 else if p = "normal" then 2 else 2

/-- The in-place `entry.accessed_count += 1` of `context_api.py` line 156. -/
def bumpAccess (e : ContextEntry) : ContextEntry :=
  { e with accessed_count := e.accessed_count + 1 }

/-- Embedding of `ContextStore.get_context`, `context_api.py` lines
141-163: collect the entries passing both filters, incrementing each
returned entry's access counter in the store, and return them sorted by
priority with Python's stable `list.sort` (modelled by the stable
`List.mergeSort`). -/
def ContextStore.get_context (session_id : String) (types : Option (List String))
    (include_expired : Bool) (now : Int) (s : ContextStore) :
    List ContextEntry × ContextStore :=
  match dictGet session_id s._store with
  | none => ([], s)
  | some entries =>
    let result := (entries.filter (passesFilters now types include_expired)).map bumpAccess
    let entries' := entries.map
      (fun e => if passesFilters now types include_expired e then bumpAccess e else e)
    (result.mergeSort (fun a b => decide (priorityKey a.priority ≤ priorityKey b.priority)),
      { s with _store := dictSet session_id entries' s._store })

/-- Embedding of `ContextStore.delete_context`, `context_api.py` lines
165-169: drop the session's context bucket and event log, returning how
many entries were removed. -/
def ContextStore.delete_context (session_id : String) (s : ContextStore) :
    Nat × ContextStore :=
  let r := dictPop session_id s._store
  let r2 := dictPop session_id s._events
  ((r.1.getD []).length, { _store := r.2, _events := r2.2 })

/-- Embedding of `ContextStore.add_event`, `context_api.py` lines 171-184. -/
def ContextStore.add_event (session_id : String) (ev : EventRecord) (s : ContextStore) :
    ContextStore :=
  let bucket := (dictGet session_id s._events).getD []
  { s with _events := dictSet session_id (bucket ++ [ev]) s._events }

/-- Embedding of `ContextStore.get_events`, `context_api.py` lines 186-188. -/
def ContextStore.get_events (session_id : String) (s : ContextStore) : List EventRecord :=
  (dictGet session_id s._events).getD []

/-- Embedding of `ContextStore.get_context_types_used`, `context_api.py`
lines 190-194: the distinct types of the session's entries with a positive
access counter (`list(set(...))` modelled by `dedup`). -/
def ContextStore.get_context_types_used (session_id : String) (s : ContextStore) :
    List String :=
  ((((dictGet session_id s._store).getD []).filter
    (fun e => decide (0 < e.accessed_count))).map (fun e => e.type)).dedup

/-- Embedding of `ContextStore.cleanup_expired`, `context_api.py` lines
196-214: every bucket keeps only its unexpired entries, buckets left empty
are deleted, and the total number of removed entries is returned (each
bucket contributes `before - len(filtered)`). -/
def ContextStore.cleanup_expired (now : Int) (s : ContextStore) : Nat × ContextStore :=
  let swept := s._store.map (fun p => (p.1, p.2.filter (fun e => !(e.is_expired now))))
  let cleaned := (s._store.map
    (fun p => p.2.length - (p.2.filter (fun e => !(e.is_expired now))).length)).sum
  (cleaned, { s with _store := swept.filter (fun p => !p.2.isEmpty) })

/-- The session's context bucket (`self._store.get(session_id, [])`). -/
def storeBucket (s : ContextStore) (session_id : String) : List ContextEntry :=
  (dictGet session_id s._store).getD []

-- Facts about add_context shared by several claims.

theorem add_context_fst (payload : ContextPayload) (default_ttl now : Int)
    (new_id : String) (s : ContextStore) :
    (ContextStore.add_context payload default_ttl now new_id s).1
      = mkEntry new_id now payload (ttlOrDefault payload.ttl_seconds default_ttl) := rfl

theorem add_context_bucket (payload : ContextPayload) (default_ttl now : Int)
    (new_id : String) (s : ContextStore) :
    storeBucket (ContextStore.add_context payload default_ttl now new_id s).2
        payload.session_id
      = storeBucket s payload.session_id
        ++ [(ContextStore.add_context payload default_ttl now new_id s).1] := by
  simp only [ContextStore.add_context, storeBucket]
  rw [dictGet_dictSet_self]
  rfl

theorem add_context_other {sid' : String} (payload : ContextPayload)
    (default_ttl now : Int) (new_id : String) (s : ContextStore)
    (h : sid' ≠ payload.session_id) :
    dictGet sid' (ContextStore.add_context payload default_ttl now new_id s).2._store
      = dictGet sid' s._store := by
  simp only [ContextStore.add_context]
  exact dictGet_dictSet_ne h _ _

theorem add_context_events (payload : ContextPayload) (default_ttl now : Int)
    (new_id : String) (s : ContextStore) :
    (ContextStore.add_context payload default_ttl now new_id s).2._events = s._events := rfl

/-- The concrete payload refuting the `ttl_override = 0` reading of C5. -/
def payTtlZero : ContextPayload :=
  { session_id := "s1", type := "invoice", data := [], priority := "high",
    ttl_seconds := some 0, source := "n8n" }

/-- Counterexample for C5: with `ttl_override = 0` the created entry gets
the configured default TTL (1800 here), not 0, because Python's
`payload.ttl_seconds or default_ttl` treats 0 as falsy. -/
theorem C5_ttl_zero_counterexample :
    payTtlZero.ttl_seconds = some 0
    ∧ (ContextStore.add_context payTtlZero 1800 7 "e1" ContextStore.init).1.ttl = 1800
    ∧ (1800 : Int) ≠ 0 := by
  refine ⟨rfl, rfl, by decide⟩

/-- C5 (amended): the created entry's ttl equals `ttl_override` whenever a
nonzero override is provided; a missing or zero (falsy) override falls
back to the configured default; and `add` appends the new entry to the
session's bucket, leaving every existing entry (of any type, in any
session) untouched. -/
theorem C5_add_ttl_and_append (payload : ContextPayload) (default_ttl now : Int)
    (new_id : String) (s : ContextStore) :
    (∀ t, payload.ttl_seconds = some t → t ≠ 0 →
      (ContextStore.add_context payload default_ttl now new_id s).1.ttl = t)
    ∧ ((payload.ttl_seconds = none ∨ payload.ttl_seconds = some 0) →
      (ContextStore.add_context payload default_ttl now new_id s).1.ttl = default_ttl)
    ∧ storeBucket (ContextStore.add_context payload default_ttl now new_id s).2
        payload.session_id
      = storeBucket s payload.session_id
        ++ [(ContextStore.add_context payload default_ttl now new_id s).1]
    ∧ (∀ sid', sid' ≠ payload.session_id →
      dictGet sid' (ContextStore.add_context payload default_ttl now new_id s).2._store
        = dictGet sid' s._store) := by
  refine ⟨?_, ?_, add_context_bucket payload default_ttl now new_id s,
    fun sid' h => add_context_other payload default_ttl now new_id s h⟩
  · intro t ht hnz
    rw [add_context_fst]
    show ttlOrDefault payload.ttl_seconds default_ttl = t
    rw [ht]
    simp [ttlOrDefault, hnz]
  · intro h
    rw [add_context_fst]
    show ttlOrDefault payload.ttl_seconds default_ttl = default_ttl
    rcases h with h | h <;> rw [h] <;> simp [ttlOrDefault]

/-- Witness for C5 (amended): a nonzero override of 60 is kept; an absent
override falls back to the default 1800. -/
theorem C5_add_ttl_and_append_witness :
    (ContextStore.add_context
      { session_id := "s1", type := "invoice", data := [], priority := "high",
        ttl_seconds := some 60, source := "n8n" } 1800 7 "e1" ContextStore.init).1.ttl = 60
    ∧ (ContextStore.add_context
      { session_id := "s1", type := "invoice", data := [], priority := "high",
        ttl_seconds := none, source := "n8n" } 1800 7 "e1" ContextStore.init).1.ttl
      = 1800 := by
  constructor
  · exact (C5_add_ttl_and_append
      { session_id := "s1", type := "invoice", data := [], priority := "high",
        ttl_seconds := some 60, source := "n8n" } 1800 7 "e1" ContextStore.init).1
      60 rfl (by decide)
  · exact (C5_add_ttl_and_append
      { session_id := "s1", type := "invoice", data := [], priority := "high",
        ttl_seconds := none, source := "n8n" } 1800 7 "e1" ContextStore.init).2.1
      (Or.inl rfl)

/-- One element of `BulkContextPayload.items`, `context_api.py` lines
454-460: a free-form dict queried with `.get(key, default)`. -/
structure BulkItem where
  type : Option String
  data : Option (List (String × String))
  priority : Option String
  source : Option String
deriving DecidableEq, Repr

/-- The `ContextPayload(...)` built for one bulk item, `context_api.py`
lines 472-478: every missing field is defaulted (`type` to `"custom"`),
and no `ttl_seconds` is passed. -/
def bulkPayload (session_id : String) (item : BulkItem) : ContextPayload :=
  { session_id := session_id
    type := item.type.getD "custom"
    data := item.data.getD []
    priority := item.priority.getD "normal"
    ttl_seconds := none
    source := item.source.getD "n8n" }

/-- Embedding of the `receive_bulk_context` loop, `context_api.py` lines
470-481: one `add_context` per item in list order; `fresh i` stands for
the uuid generated for the i-th add. -/
def receive_bulk_context (session_id : String) (default_ttl : Int) (now : Int)
    (fresh : Nat → String) : Nat → List BulkItem → ContextStore →
    List (String × String) × ContextStore
  | _, [], s => ([], s)
  | i, item :: rest, s =>
    let ctx := bulkPayload session_id item
    let r := ContextStore.add_context ctx default_ttl now (fresh i) s
    let rr := receive_bulk_context session_id default_ttl now fresh (i + 1) rest r.2
    ((r.1.id, ctx.type) :: rr.1, rr.2)

/-- Deterministic stand-in for the per-add uuids in concrete runs. -/
def freshId (i : Nat) : String := String.mk (List.replicate i 'x')

/-- The three bulk items of the C6 scenario: only the second lacks a type. -/
def bulkItemsC6 : List BulkItem :=
  [{ type := some "invoice", data := none, priority := some "high", source := none },
   { type := none, data := none, priority := none, source := none },
   { type := some "appointment", data := none, priority := some "urgent", source := none }]

/-- Counterexample for C6: bulk-injecting three items where only the
second lacks a type stores all three entries — the second one under the
default type `"custom"` — not just the first and third. -/
theorem C6_missing_type_counterexample :
    (storeBucket
        (receive_bulk_context "s1" 1800 0 freshId 0 bulkItemsC6 ContextStore.init).2
        "s1").map (fun e => e.type) = ["invoice", "custom", "appointment"]
    ∧ (storeBucket
        (receive_bulk_context "s1" 1800 0 freshId 0 bulkItemsC6 ContextStore.init).2
        "s1").length ≠ 2
    ∧ (receive_bulk_context "s1" 1800 0 freshId 0 bulkItemsC6 ContextStore.init).1.length
      = 3 := by
  refine ⟨rfl, by decide, rfl⟩

/-- C6 (amended): `add` is applied once per item in list order and every
item is stored — an item missing its type is not skipped but stored under
the default type `"custom"`, and it does not prevent the remaining items
from being stored; buckets of other sessions are untouched. -/
theorem C6_bulk_stores_every_item (session_id : String) (default_ttl now : Int)
    (fresh : Nat → String) (items : List BulkItem) (i : Nat) (s : ContextStore) :
    (receive_bulk_context session_id default_ttl now fresh i items s).1
      = (items.enumFrom i).map (fun p => (fresh p.1, p.2.type.getD "custom"))
    ∧ storeBucket (receive_bulk_context session_id default_ttl now fresh i items s).2
        session_id
      = storeBucket s session_id
        ++ (items.enumFrom i).map
          (fun p => mkEntry (fresh p.1) now (bulkPayload session_id p.2) default_ttl)
    ∧ (∀ sid', sid' ≠ session_id →
      dictGet sid'
          (receive_bulk_context session_id default_ttl now fresh i items s).2._store
        = dictGet sid' s._store) := by
  induction items generalizing i s with
  | nil => exact ⟨rfl, by simp [receive_bulk_context], fun _ _ => rfl⟩
  | cons item rest ih =>
    obtain ⟨ih1, ih2, ih3⟩ := ih (i + 1)
      (ContextStore.add_context (bulkPayload session_id item) default_ttl now (fresh i) s).2
    refine ⟨?_, ?_, ?_⟩
    · simp only [receive_bulk_context, List.enumFrom, List.map_cons, ih1]
      rfl
    · simp only [receive_bulk_context, List.enumFrom, List.map_cons]
      rw [ih2]
      have hb := add_context_bucket (bulkPayload session_id item) default_ttl now (fresh i) s
      rw [show (bulkPayload session_id item).session_id = session_id from rfl] at hb
      rw [hb, add_context_fst]
      simp [ttlOrDefault, bulkPayload]
    · intro sid' h
      simp only [receive_bulk_context]
      rw [ih3 sid' h]
      exact add_context_other (bulkPayload session_id item) default_ttl now (fresh i) s h

/-- Witness for C6: the concrete three-item bulk payload, with the id/type
list it returns and another session's bucket untouched. -/
theorem C6_bulk_stores_every_item_witness :
    dictGet "other"
        (receive_bulk_context "s1" 1800 0 freshId 0 bulkItemsC6 ContextStore.init).2._store
      = dictGet "other" ContextStore.init._store
    ∧ (receive_bulk_context "s1" 1800 0 freshId 0 bulkItemsC6 ContextStore.init).1
      = (bulkItemsC6.enumFrom 0).map (fun p => (freshId p.1, p.2.type.getD "custom")) := by
  constructor
  · exact (C6_bulk_stores_every_item "s1" 1800 0 freshId bulkItemsC6 0
      ContextStore.init).2.2 "other" (by decide)
  · exact (C6_bulk_stores_every_item "s1" 1800 0 freshId bulkItemsC6 0 ContextStore.init).1

-- Stability of the priority sort in get_context.

theorem prioLe_trans (a b c : ContextEntry) :
    decide (priorityKey a.priority ≤ priorityKey b.priority) = true →
    decide (priorityKey b.priority ≤ priorityKey c.priority) = true →
    decide (priorityKey a.priority ≤ priorityKey c.priority) = true := fun hab hbc =>
  decide_eq_true (le_trans (of_decide_eq_true hab) (of_decide_eq_true hbc))

theorem prioLe_total (a b : ContextEntry) :
    (decide (priorityKey a.priority ≤ priorityKey b.priority)
      || decide (priorityKey b.priority ≤ priorityKey a.priority)) = true := by
  rcases Nat.le_total (priorityKey a.priority) (priorityKey b.priority) with h | h <;> simp [h]

theorem mergeSort_filter_key (L : List ContextEntry) (k : Nat) :
    (L.mergeSort
        (fun a b => decide (priorityKey a.priority ≤ priorityKey b.priority))).filter
      (fun e => decide (priorityKey e.priority = k))
    = L.filter (fun e => decide (priorityKey e.priority = k)) := by
  have hpair : (L.filter (fun e => decide (priorityKey e.priority = k))).Pairwise
      (fun a b =>
        decide (priorityKey a.priority ≤ priorityKey b.priority) = true) := by
    apply List.pairwise_of_forall_mem_list
    intro a ha b hb
    have ha' : priorityKey a.priority = k := of_decide_eq_true (List.mem_filter.mp ha).2
    have hb' : priorityKey b.priority = k := of_decide_eq_true (List.mem_filter.mp hb).2
    exact decide_eq_true (by rw [ha', hb'])
  have hsub := (List.sublist_mergeSort prioLe_trans prioLe_total hpair
    (List.filter_sublist L)).filter (fun e => decide (priorityKey e.priority = k))
  have hself : (L.filter (fun e => decide (priorityKey e.priority = k))).filter
      (fun e => decide (priorityKey e.priority = k))
      = L.filter (fun e => decide (priorityKey e.priority = k)) :=
    List.filter_eq_self.mpr (fun a ha => (List.mem_filter.mp ha).2)
  rw [hself] at hsub
  have hlen : ((L.mergeSort
      (fun a b => decide (priorityKey a.priority ≤ priorityKey b.priority))).filter
        (fun e => decide (priorityKey e.priority = k))).length
      = (L.filter (fun e => decide (priorityKey e.priority = k))).length := by
    rw [← List.countP_eq_length_filter, ← List.countP_eq_length_filter]
    exact (List.mergeSort_perm L _).countP_eq _
  exact (hsub.eq_of_length hlen.symm).symm

theorem filter_priority_refine (X : List ContextEntry) (p : String) :
    X.filter (fun e => decide (e.priority = p))
      = (X.filter (fun e => decide (priorityKey e.priority = priorityKey p))).filter
        (fun e => decide (e.priority = p)) := by
  rw [List.filter_filter]
  apply List.filter_congr
  intro a _
  by_cases ha : a.priority = p
  · simp [ha]
  · simp [ha]

theorem mergeSort_filter_priority (L : List ContextEntry) (p : String) :
    (L.mergeSort
        (fun a b => decide (priorityKey a.priority ≤ priorityKey b.priority))).filter
      (fun e => decide (e.priority = p))
    = L.filter (fun e => decide (e.priority = p)) := by
  rw [filter_priority_refine, mergeSort_filter_key, ← filter_priority_refine]

/-- C4: the list returned by `get_context` is ordered by the priority rank
`urgent(0) < high(1) < normal(2)` (so every urgent entry precedes every
high entry and every high entry precedes every normal entry), and within
one priority the original insertion order of the bucket is preserved
(Python's `list.sort` is stable). -/
theorem C4_get_sorted_stable (s : ContextStore) (sid : String)
    (types : Option (List String)) (ie : Bool) (now : Int) :
    (ContextStore.get_context sid types ie now s).1.Pairwise
      (fun a b => priorityKey a.priority ≤ priorityKey b.priority)
    ∧ ∀ p, (ContextStore.get_context sid types ie now s).1.filter
        (fun e => decide (e.priority = p))
      = (((storeBucket s sid).filter (passesFilters now types ie)).map bumpAccess).filter
        (fun e => decide (e.priority = p)) := by
  rcases hb : dictGet sid s._store with _ | entries
  · constructor
    · simp [ContextStore.get_context, hb]
    · intro p
      simp [ContextStore.get_context, hb, storeBucket]
  · constructor
    · simp only [ContextStore.get_context, hb]
      exact (List.sorted_mergeSort prioLe_trans prioLe_total _).imp
        (fun h => of_decide_eq_true h)
    · intro p
      simp only [ContextStore.get_context, hb, storeBucket, Option.getD_some]
      exact mergeSort_filter_priority _ p

-- Expiry characterisation of get_context and cleanup_expired.

theorem bumpAccess_inj {a b : ContextEntry} (h : bumpAccess a = bumpAccess b) : a = b := by
  cases a
  cases b
  simp only [bumpAccess, ContextEntry.mk.injEq] at h ⊢
  obtain ⟨h1, h2, h3, h4, h5, h6, h7, h8, h9⟩ := h
  exact ⟨h1, h2, h3, h4, h5, h6, h7, h8, by omega⟩

theorem passes_none_iff (now : Int) (ie : Bool) (e : ContextEntry) :
    passesFilters now none ie e = true ↔ (now - e.created_at ≤ e.ttl ∨ ie = true) := by
  cases ie <;> simp [passesFilters, ContextEntry.is_expired] <;> omega

theorem length_sub_filter {α : Type} (p : α → Bool) (l : List α) :
    l.length - (l.filter p).length = (l.filter (fun a => !(p a))).length := by
  have h1 := List.length_eq_countP_add_countP p l
  rw [List.countP_eq_length_filter, List.countP_eq_length_filter] at h1
  have h2 : (l.filter (fun a => decide ¬p a = true)).length
      = (l.filter (fun a => !(p a))).length := by
    have : l.filter (fun a => decide ¬p a = true) = l.filter (fun a => !(p a)) :=
      List.filter_congr (fun x _ => by cases hp : p x <;> simp [hp])
    rw [this]
  omega

theorem dictGet_sweepStore (now : Int) (l : List (String × List ContextEntry))
    (hnd : (l.map Prod.fst).Nodup) (sid : String) :
    dictGet sid ((l.map (fun p => (p.1, p.2.filter (fun e => !(e.is_expired now))))).filter
      (fun p => !p.2.isEmpty))
    = (match dictGet sid l with
      | none => none
      | some es =>
        if (es.filter (fun e => !(e.is_expired now))).isEmpty then none
        else some (es.filter (fun e => !(e.is_expired now)))) := by
  induction l with
  | nil => simp [dictGet]
  | cons p rest ih =>
    obtain ⟨pk, es⟩ := p
    simp only [List.map_cons, List.nodup_cons] at hnd
    have ihr := ih hnd.2
    by_cases hsid : pk = sid
    · subst hsid
      by_cases hemp : ((es.filter (fun e => !(e.is_expired now))).isEmpty : Bool)
      · have hnone : dictGet pk ((rest.map
            (fun p => (p.1, p.2.filter (fun e => !(e.is_expired now))))).filter
            (fun p => !p.2.isEmpty)) = none := by
          refine dictGet_none_iff.mpr (fun q hq hqk => ?_)
          rcases List.mem_map.mp (List.mem_of_mem_filter hq) with ⟨q0, hq0, hq0e⟩
          apply hnd.1
          have : q0.1 = pk := by rw [← hq0e] at hqk; exact hqk
          rw [← this]
          exact List.mem_map_of_mem Prod.fst hq0
        simp only [List.map_cons, List.filter_cons]
        rw [show (!((es.filter (fun e => !(e.is_expired now))).isEmpty)) = false by
          simp [hemp]]
        simp only [Bool.false_eq_true, if_neg, not_false_iff, hnone]
        simp [dictGet, hemp]
      · simp only [List.map_cons, List.filter_cons]
        rw [show (!((es.filter (fun e => !(e.is_expired now))).isEmpty)) = true by
          simp only [Bool.not_eq_true] at hemp
          simp [hemp]]
        simp [dictGet, hemp]
    · simp only [List.map_cons, List.filter_cons]
      by_cases hemp : ((es.filter (fun e => !(e.is_expired now))).isEmpty : Bool)
      · rw [show (!((es.filter (fun e => !(e.is_expired now))).isEmpty)) = false by
          simp [hemp]]
        simp only [Bool.false_eq_true, if_neg, not_false_iff, ihr]
        simp [dictGet, hsid]
      · rw [show (!((es.filter (fun e => !(e.is_expired now))).isEmpty)) = true by
          simp only [Bool.not_eq_true] at hemp
          simp [hemp]]
        simp [dictGet, hsid, ihr]

/-- C3: with no type filter, a stored entry is returned by `get_context`
iff it is unexpired (`now - created_at ≤ ttl`) or `include_expired` was
requested; and `cleanup_expired` removes exactly the expired entries
(`now - created_at > ttl`), returns their total count, and drops any
session bucket left empty. -/
theorem C3_expiry_and_sweep :
    (∀ (s : ContextStore) (sid : String) (now : Int) (ie : Bool),
      ∀ e ∈ storeBucket s sid,
        (bumpAccess e ∈ (ContextStore.get_context sid none ie now s).1 ↔
          (now - e.created_at ≤ e.ttl ∨ ie = true)))
    ∧ (∀ (s : ContextStore) (now : Int), (s._store.map Prod.fst).Nodup →
      (ContextStore.cleanup_expired now s).1
        = (s._store.map (fun p => (p.2.filter (fun e => e.is_expired now)).length)).sum
      ∧ ∀ sid, dictGet sid (ContextStore.cleanup_expired now s).2._store
          = (match dictGet sid s._store with
            | none => none
            | some es =>
              if (es.filter (fun e => !(e.is_expired now))).isEmpty then none
              else some (es.filter (fun e => !(e.is_expired now))))) := by
  constructor
  · intro s sid now ie e he
    rcases hb : dictGet sid s._store with _ | entries
    · rw [storeBucket, hb] at he
      cases he
    · rw [storeBucket, hb, Option.getD_some] at he
      simp only [ContextStore.get_context, hb]
      rw [List.mem_mergeSort]
      constructor
      · intro hm
        rcases List.mem_map.mp hm with ⟨x, hx, hxe⟩
        have hxe' : x = e := bumpAccess_inj hxe
        subst hxe'
        exact (passes_none_iff now ie x).mp (List.mem_filter.mp hx).2
      · intro hcond
        exact List.mem_map_of_mem bumpAccess
          (List.mem_filter.mpr ⟨he, (passes_none_iff now ie e).mpr hcond⟩)
  · intro s now hnd
    constructor
    · simp only [ContextStore.cleanup_expired]
      congr 1
      apply List.map_congr_left
      intro p _
      rw [length_sub_filter]
      apply congrArg List.length
      exact List.filter_congr (fun x _ => by cases hx : x.is_expired now <;> simp [hx])
    · intro sid
      simp only [ContextStore.cleanup_expired]
      exact dictGet_sweepStore now s._store hnd sid

/-- The concrete entry and store exercising C3: one entry with TTL 60
created at time 0. -/
def entryC3 : ContextEntry :=
  mkEntry "e1" 0
    { session_id := "s1", type := "invoice", data := [], priority := "high",
      ttl_seconds := some 60, source := "n8n" } 60

/-- The concrete store holding `entryC3` under session `s1`. -/
def storeC3 : ContextStore :=
  { _store := [("s1", [entryC3])], _events := [] }

/-- Witness for C3: at time 100 the TTL-60 entry is expired, so a get with
`include_expired` still returns it, the sweep counts one removed entry,
and the emptied bucket disappears. -/
theorem C3_expiry_and_sweep_witness :
    bumpAccess entryC3 ∈ (ContextStore.get_context "s1" none true 100 storeC3).1
    ∧ (ContextStore.cleanup_expired 100 storeC3).1 = 1
    ∧ dictGet "s1" (ContextStore.cleanup_expired 100 storeC3).2._store = none := by
  refine ⟨?_, ?_, ?_⟩
  · exact (C3_expiry_and_sweep.1 storeC3 "s1" 100 true entryC3 (by decide)).mpr (Or.inr rfl)
  · rw [(C3_expiry_and_sweep.2 storeC3 100 (by decide)).1]
    rfl
  · rw [(C3_expiry_and_sweep.2 storeC3 100 (by decide)).2 "s1"]
    rfl

-- Trace semantics for the ContextStore, for the types_accessed claim.

/-- One state-mutating call on the shared `ContextStore`. -/
inductive CtxOp where
  | add (payload : ContextPayload) (default_ttl : Int) (now : Int) (new_id : String)
  | get (session_id : String) (types : Option (List String)) (include_expired : Bool)
      (now : Int)
  | sweep (now : Int)
  | del (session_id : String)
deriving Repr

/-- Effect of one call on the store. -/
def CtxOp.apply : CtxOp → ContextStore → ContextStore
  | .add p dttl now nid, s => (ContextStore.add_context p dttl now nid s).2
  | .get sid ts ie now, s => (ContextStore.get_context sid ts ie now s).2
  | .sweep now, s => (ContextStore.cleanup_expired now s).2
  | .del sid, s => (ContextStore.delete_context sid s).2

/-- Run a sequence of calls from a given store state. -/
def runCtx (ops : List CtxOp) (s : ContextStore) : ContextStore :=
  ops.foldl (fun acc op => op.apply acc) s

/-- The uuids handed to the `add` calls of a trace. -/
def addIds : List CtxOp → List String
  | [] => []
  | CtxOp.add _ _ _ nid :: rest => nid :: addIds rest
  | _ :: rest => addIds rest

/-- The ids of every entry stored anywhere in the store. -/
def storeIds (s : ContextStore) : List String :=
  (s._store.map (fun p => p.2.map (fun e => e.id))).flatten

/-- Some earlier `get` call of the trace (run from an empty store)
returned an entry with this id for this session. -/
def ReturnedId (ops : List CtxOp) (sid eid : String) : Prop :=
  ∃ i, ∃ h : i < ops.length, ∃ ts ie now,
    ops.get ⟨i, h⟩ = CtxOp.get sid ts ie now ∧
    ∃ e' ∈ (ContextStore.get_context sid ts ie now
      (runCtx (ops.take i) ContextStore.init)).1, e'.id = eid

/-- The reading of C7 as stated: some earlier `get` call returned an entry
of this type that was unexpired at that get and whose id is still stored
at the end of the trace. -/
def ReturnedUnexpiredStillStored (ops : List CtxOp) (sid t : String) : Prop :=
  ∃ i, ∃ h : i < ops.length, ∃ ts ie now,
    ops.get ⟨i, h⟩ = CtxOp.get sid ts ie now ∧
    ∃ e' ∈ (ContextStore.get_context sid ts ie now
      (runCtx (ops.take i) ContextStore.init)).1,
      e'.type = t ∧ e'.is_expired now = false ∧
      ∃ ef ∈ storeBucket (runCtx ops ContextStore.init) sid, ef.id = e'.id

theorem runCtx_append (l : List CtxOp) (op : CtxOp) (s : ContextStore) :
    runCtx (l ++ [op]) s = op.apply (runCtx l s) := by
  simp [runCtx, List.foldl_append]

theorem addIds_append (l l' : List CtxOp) : addIds (l ++ l') = addIds l ++ addIds l' := by
  induction l with
  | nil => rfl
  | cons op rest ih => cases op <;> simp [addIds, ih]

theorem addIds_take_sub {x : String} {l : List CtxOp} {i : Nat}
    (h : x ∈ addIds (l.take i)) : x ∈ addIds l := by
  have h2 : addIds l = addIds (l.take i) ++ addIds (l.drop i) := by
    rw [← addIds_append, List.take_append_drop]
  rw [h2]
  exact List.mem_append_left _ h

theorem dictGet_mem {α : Type} {k : String} {l : List (String × α)} {v : α}
    (h : dictGet k l = some v) : (k, v) ∈ l := by
  induction l with
  | nil => cases h
  | cons p rest ih =>
    obtain ⟨pk, pv⟩ := p
    by_cases hk : pk = k
    · subst hk
      simp only [dictGet, if_pos] at h
      injection h with h
      subst h
      exact List.mem_cons_self _ _
    · simp only [dictGet, hk, if_neg, not_false_iff] at h
      exact List.mem_cons_of_mem _ (ih h)

theorem mem_storeIds_of_bucket {s : ContextStore} {sid : String} {e : ContextEntry}
    (he : e ∈ storeBucket s sid) : e.id ∈ storeIds s := by
  rcases hb : dictGet sid s._store with _ | es
  · rw [storeBucket, hb] at he
    cases he
  · rw [storeBucket, hb, Option.getD_some] at he
    refine List.mem_join.mpr ⟨es.map (fun e => e.id), ?_, List.mem_map_of_mem _ he⟩
    have := dictGet_mem hb
    exact List.mem_map.mpr ⟨(sid, es), this, rfl⟩

theorem bucket_apply_add (p : ContextPayload) (dttl now : Int) (nid : String)
    (s : ContextStore) (sid : String) :
    storeBucket ((CtxOp.add p dttl now nid).apply s) sid
      = if sid = p.session_id
        then storeBucket s sid ++ [mkEntry nid now p (ttlOrDefault p.ttl_seconds dttl)]
        else storeBucket s sid := by
  by_cases h : sid = p.session_id
  · subst h
    rw [if_pos rfl]
    have hb := add_context_bucket p dttl now nid s
    rw [add_context_fst] at hb
    exact hb
  · rw [if_neg h]
    simp only [CtxOp.apply, storeBucket]
    rw [add_context_other p dttl now nid s h]

theorem bucket_apply_get (sid' : String) (ts : Option (List String)) (ie : Bool)
    (now : Int) (s : ContextStore) (sid : String) :
    storeBucket ((CtxOp.get sid' ts ie now).apply s) sid
      = if sid = sid'
        then (storeBucket s sid).map
          (fun e => if passesFilters now ts ie e then bumpAccess e else e)
        else storeBucket s sid := by
  simp only [CtxOp.apply, ContextStore.get_context]
  rcases hb : dictGet sid' s._store with _ | entries
  · by_cases h : sid = sid'
    · subst h
      rw [if_pos rfl]
      simp [storeBucket, hb]
    · rw [if_neg h]
  · by_cases h : sid = sid'
    · subst h
      rw [if_pos rfl]
      simp only [storeBucket]
      rw [dictGet_dictSet_self, hb]
      rfl
    · rw [if_neg h]
      simp only [storeBucket]
      rw [dictGet_dictSet_ne h]

theorem bucket_apply_sweep (now : Int) (s : ContextStore)
    (hnd : (s._store.map Prod.fst).Nodup) (sid : String) :
    storeBucket ((CtxOp.sweep now).apply s) sid
      = (storeBucket s sid).filter (fun e => !(e.is_expired now)) := by
  simp only [CtxOp.apply, ContextStore.cleanup_expired, storeBucket]
  rw [dictGet_sweepStore now s._store hnd sid]
  rcases hb : dictGet sid s._store with _ | es
  · simp
  · simp only [Option.getD_some]
    by_cases hemp : ((es.filter (fun e => !(e.is_expired now))).isEmpty : Bool)
    · rw [if_pos hemp]
      rw [List.isEmpty_iff.mp hemp]
      rfl
    · rw [if_neg hemp]
      rfl

theorem bucket_apply_del (sid'' : String) (s : ContextStore)
    (hnd : (s._store.map Prod.fst).Nodup) (sid : String) :
    storeBucket ((CtxOp.del sid'').apply s) sid
      = if sid = sid'' then [] else storeBucket s sid := by
  simp only [CtxOp.apply, ContextStore.delete_context, storeBucket]
  by_cases h : sid = sid''
  · subst h
    rw [if_pos rfl, dictGet_dictPop_of_nodup hnd]
    rfl
  · rw [if_neg h, dictGet_dictPop_ne h]

theorem storeIds_apply {x : String} (op : CtxOp) (s : ContextStore)
    (hx : x ∈ storeIds (op.apply s)) :
    x ∈ storeIds s
      ∨ ∃ p dttl now nid, op = CtxOp.add p dttl now nid ∧ x = nid := by
  have bucket_ids : ∀ (l : List (String × List ContextEntry)) (q : String × List ContextEntry),
      q ∈ l → x ∈ q.2.map (fun e => e.id) →
      x ∈ (l.map (fun p => p.2.map (fun e => e.id))).flatten := fun l q hq hxq =>
    List.mem_join.mpr ⟨q.2.map (fun e => e.id), List.mem_map.mpr ⟨q, hq, rfl⟩, hxq⟩
  cases op with
  | add p dttl now nid =>
    rcases List.mem_join.mp hx with ⟨ids, hids, hxids⟩
    rcases List.mem_map.mp hids with ⟨q, hq, rfl⟩
    have hq' := dictSet_mem hq
    rcases hq' with rfl | hq2
    · simp only at hxids
      rcases List.mem_map.mp hxids with ⟨e, he, rfl⟩
      rcases List.mem_append.mp he with he1 | he2
      · rcases hb : dictGet p.session_id s._store with _ | bs
        · rw [show ((dictGet p.session_id s._store).getD []) = [] by rw [hb]; rfl] at he1
          cases he1
        · rw [show ((dictGet p.session_id s._store).getD []) = bs by rw [hb]; rfl] at he1
          exact Or.inl (bucket_ids s._store (p.session_id, bs) (dictGet_mem hb)
            (List.mem_map_of_mem _ he1))
      · have he2' := List.mem_singleton.mp he2
        subst he2'
        exact Or.inr ⟨p, dttl, now, nid, rfl, rfl⟩
    · exact Or.inl (bucket_ids s._store q hq2 hxids)
  | get sid' ts ie now =>
    simp only [CtxOp.apply, ContextStore.get_context] at hx
    rcases hb : dictGet sid' s._store with _ | entries
    · rw [hb] at hx
      exact Or.inl hx
    · rw [hb] at hx
      simp only at hx
      rcases List.mem_join.mp hx with ⟨ids, hids, hxids⟩
      rcases List.mem_map.mp hids with ⟨q, hq, rfl⟩
      rcases dictSet_mem hq with rfl | hq2
      · simp only [List.map_map] at hxids
        have hsame : entries.map ((fun e => e.id) ∘
            (fun e => if passesFilters now ts ie e then bumpAccess e else e))
            = entries.map (fun e => e.id) := by
          apply List.map_congr_left
          intro e _
          by_cases hp : passesFilters now ts ie e <;> simp [hp, bumpAccess]
        rw [hsame] at hxids
        exact Or.inl (bucket_ids s._store (sid', entries) (dictGet_mem hb) hxids)
      · exact Or.inl (bucket_ids s._store q hq2 hxids)
  | sweep now =>
    simp only [CtxOp.apply, ContextStore.cleanup_expired] at hx
    rcases List.mem_join.mp hx with ⟨ids, hids, hxids⟩
    rcases List.mem_map.mp hids with ⟨q, hq, rfl⟩
    rcases List.mem_map.mp (List.mem_of_mem_filter hq) with ⟨q0, hq0, rfl⟩
    simp only at hxids
    rcases List.mem_map.mp hxids with ⟨e, he, rfl⟩
    exact Or.inl (bucket_ids s._store q0 hq0
      (List.mem_map_of_mem _ (List.mem_of_mem_filter he)))
  | del sid'' =>
    simp only [CtxOp.apply, ContextStore.delete_context] at hx
    rcases List.mem_join.mp hx with ⟨ids, hids, hxids⟩
    rcases List.mem_map.mp hids with ⟨q, hq, rfl⟩
    exact Or.inl (bucket_ids s._store q
      ((dictPop_snd_sublist sid'' s._store).subset hq) hxids)

theorem runCtx_storeIds_sub (ops : List CtxOp) :
    ∀ x ∈ storeIds (runCtx ops ContextStore.init), x ∈ addIds ops := by
  induction ops using List.reverseRecOn with
  | nil =>
    intro x hx
    simp [runCtx, ContextStore.init, storeIds] at hx
  | append_singleton l op ih =>
    intro x hx
    rw [runCtx_append] at hx
    rcases storeIds_apply op _ hx with h | ⟨p, dttl, now, nid, rfl, rfl⟩
    · rw [addIds_append]
      exact List.mem_append_left _ (ih x h)
    · rw [addIds_append]
      apply List.mem_append_right
      simp [addIds]

theorem keys_nodup_apply (op : CtxOp) {s : ContextStore}
    (h : (s._store.map Prod.fst).Nodup) :
    (((op.apply s)._store.map Prod.fst).Nodup) := by
  cases op with
  | add p dttl now nid => exact dictSet_keys_nodup h
  | get sid' ts ie now =>
    simp only [CtxOp.apply, ContextStore.get_context]
    rcases hb : dictGet sid' s._store with _ | entries
    · exact h
    · exact dictSet_keys_nodup h
  | sweep now =>
    simp only [CtxOp.apply, ContextStore.cleanup_expired]
    have h1 : ((s._store.map
        (fun p => (p.1, p.2.filter (fun e => !(e.is_expired now))))).map Prod.fst)
        = s._store.map Prod.fst := by
      rw [List.map_map]
      apply List.map_congr_left
      intro q _
      rfl
    have h2 := (List.filter_sublist (p := fun p => !p.2.isEmpty)
      (s._store.map (fun p => (p.1, p.2.filter (fun e => !(e.is_expired now)))))).map Prod.fst
    rw [h1] at h2
    exact h.sublist h2
  | del sid'' =>
    simp only [CtxOp.apply, ContextStore.delete_context]
    exact h.sublist ((dictPop_snd_sublist sid'' s._store).map Prod.fst)

theorem runCtx_keys_nodup (ops : List CtxOp) :
    (((runCtx ops ContextStore.init)._store.map Prod.fst).Nodup) := by
  have hgen : ∀ (l : List CtxOp) (s : ContextStore), (s._store.map Prod.fst).Nodup →
      (((runCtx l s)._store.map Prod.fst).Nodup) := by
    intro l
    induction l with
    | nil => exact fun s hs => hs
    | cons op rest ih => exact fun s hs => ih (op.apply s) (keys_nodup_apply op hs)
  exact hgen ops ContextStore.init (by simp [ContextStore.init])

theorem get_result_mem {sid : String} {ts : Option (List String)} {ie : Bool} {now : Int}
    {s : ContextStore} {e' : ContextEntry}
    (h : e' ∈ (ContextStore.get_context sid ts ie now s).1) :
    ∃ e ∈ storeBucket s sid, passesFilters now ts ie e = true ∧ e' = bumpAccess e := by
  rcases hb : dictGet sid s._store with _ | entries
  · simp [ContextStore.get_context, hb] at h
  · simp only [ContextStore.get_context, hb] at h
    rw [List.mem_mergeSort] at h
    rcases List.mem_map.mp h with ⟨e, he, rfl⟩
    exact ⟨e, by rw [storeBucket, hb]; exact (List.mem_filter.mp he).1,
      (List.mem_filter.mp he).2, rfl⟩

theorem returnedId_append (l : List CtxOp) (op : CtxOp) (sid eid : String) :
    ReturnedId (l ++ [op]) sid eid ↔
      (ReturnedId l sid eid ∨
        ∃ ts ie now, op = CtxOp.get sid ts ie now ∧
          ∃ e' ∈ (ContextStore.get_context sid ts ie now (runCtx l ContextStore.init)).1,
            e'.id = eid) := by
  constructor
  · rintro ⟨i, hi, ts, ie, now, hop, he⟩
    rcases Nat.lt_or_ge i l.length with hlt | hge
    · left
      refine ⟨i, hlt, ts, ie, now, ?_, ?_⟩
      · rw [List.get_eq_getElem] at hop ⊢
        rw [List.getElem_append_left hlt] at hop
        exact hop
      · rw [List.take_append_of_le_length (le_of_lt hlt)] at he
        exact he
    · have hieq : i = l.length := by
        have h2 : i < l.length + 1 := by simpa using hi
        omega
      subst hieq
      right
      rw [List.get_eq_getElem] at hop
      rw [List.getElem_concat_length l op _ rfl _] at hop
      refine ⟨ts, ie, now, hop, ?_⟩
      rw [List.take_left l [op]] at he
      exact he
  · rintro (⟨i, hi, ts, ie, now, hop, he⟩ | ⟨ts, ie, now, rfl, he⟩)
    · refine ⟨i, by simp only [List.length_append, List.length_singleton]; omega,
        ts, ie, now, ?_, ?_⟩
      · rw [List.get_eq_getElem] at hop ⊢
        rw [List.getElem_append_left hi]
        exact hop
      · rw [List.take_append_of_le_length (le_of_lt hi)]
        exact he
    · refine ⟨l.length, by simp, ts, ie, now, ?_, ?_⟩
      · rw [List.get_eq_getElem]
        exact List.getElem_concat_length l _ _ rfl _
      · rw [List.take_left l _]
        exact he

theorem get_result_mem_of {sid : String} {ts : Option (List String)} {ie : Bool}
    {now : Int} {s : ContextStore} {e : ContextEntry}
    (he : e ∈ storeBucket s sid) (hp : passesFilters now ts ie e = true) :
    bumpAccess e ∈ (ContextStore.get_context sid ts ie now s).1 := by
  rcases hb : dictGet sid s._store with _ | entries
  · rw [storeBucket, hb] at he
    cases he
  · rw [storeBucket, hb, Option.getD_some] at he
    simp only [ContextStore.get_context, hb]
    rw [List.mem_mergeSort]
    exact List.mem_map_of_mem bumpAccess (List.mem_filter.mpr ⟨he, hp⟩)

theorem ctx_main_inv (ops : List CtxOp) (hwf : (addIds ops).Nodup) :
    (∀ sid, ((storeBucket (runCtx ops ContextStore.init) sid).map (fun e => e.id)).Nodup)
    ∧ (∀ sid, ∀ e ∈ storeBucket (runCtx ops ContextStore.init) sid,
        (0 < e.accessed_count ↔ ReturnedId ops sid e.id)) := by
  induction ops using List.reverseRecOn with
  | nil =>
    refine ⟨fun sid => ?_, fun sid e he => ?_⟩
    · simp [runCtx, storeBucket, ContextStore.init, dictGet]
    · simp [runCtx, storeBucket, ContextStore.init, dictGet] at he
  | append_singleton l op ih =>
    have hwl : (addIds l).Nodup := by
      rw [addIds_append] at hwf
      exact (List.nodup_append.mp hwf).1
    obtain ⟨ihN, ihC⟩ := ih hwl
    have hkeys := runCtx_keys_nodup l
    cases op with
    | add p dttl now nid =>
      have hnid : nid ∉ addIds l := by
        rw [addIds_append] at hwf
        intro hc
        exact (List.nodup_append.mp hwf).2.2 hc (by simp [addIds])
      have hRI : ∀ sid x, ReturnedId (l ++ [CtxOp.add p dttl now nid]) sid x ↔
          ReturnedId l sid x := by
        intro sid x
        rw [returnedId_append]
        constructor
        · rintro (h | ⟨ts, ie, now2, heq, -⟩)
          · exact h
          · cases heq
        · exact Or.inl
      have hfreshBucket : ∀ sid,
          nid ∉ (storeBucket (runCtx l ContextStore.init) sid).map (fun e => e.id) := by
        intro sid hc
        rcases List.mem_map.mp hc with ⟨e, he, hid⟩
        exact hnid (hid ▸ runCtx_storeIds_sub l e.id (mem_storeIds_of_bucket he))
      constructor
      · intro sid
        rw [runCtx_append, bucket_apply_add]
        by_cases hsid : sid = p.session_id
        · rw [if_pos hsid, List.map_append]
          refine List.nodup_append.mpr ⟨ihN sid, by simp, ?_⟩
          intro a ha hal
          have ha' : a = nid := by simpa [mkEntry] using hal
          subst ha'
          exact hfreshBucket sid ha
        · rw [if_neg hsid]
          exact ihN sid
      · intro sid e he
        rw [runCtx_append, bucket_apply_add] at he
        rw [hRI]
        by_cases hsid : sid = p.session_id
        · rw [if_pos hsid] at he
          rcases List.mem_append.mp he with he0 | he1
          · exact ihC sid e he0
          · have he1' := List.mem_singleton.mp he1
            subst he1'
            constructor
            · intro hc
              exact absurd hc (by simp [mkEntry])
            · rintro ⟨i, hi, ts, ie, now2, hop, e', he', hid⟩
              exfalso
              rcases get_result_mem he' with ⟨e0, he0, -, rfl⟩
              have hid' : e0.id = nid := by simpa [bumpAccess, mkEntry] using hid
              have hmem : e0.id ∈ addIds (l.take i) :=
                runCtx_storeIds_sub (l.take i) e0.id (mem_storeIds_of_bucket he0)
              exact hnid (hid' ▸ addIds_take_sub hmem)
        · rw [if_neg hsid] at he
          exact ihC sid e he
    | get sid' ts' ie' now' =>
      have hRI : ∀ sid x, ReturnedId (l ++ [CtxOp.get sid' ts' ie' now']) sid x ↔
          (ReturnedId l sid x ∨ (sid' = sid ∧
            ∃ e' ∈ (ContextStore.get_context sid' ts' ie' now'
              (runCtx l ContextStore.init)).1, e'.id = x)) := by
        intro sid x
        rw [returnedId_append]
        constructor
        · rintro (h | ⟨ts, ie, now2, heq, he'⟩)
          · exact Or.inl h
          · injection heq with h1 h2 h3 h4
            subst h1
            subst h2
            subst h3
            subst h4
            exact Or.inr ⟨rfl, he'⟩
        · rintro (h | ⟨heq, he'⟩)
          · exact Or.inl h
          · subst heq
            exact Or.inr ⟨ts', ie', now', rfl, he'⟩
      constructor
      · intro sid
        rw [runCtx_append, bucket_apply_get]
        by_cases hsid : sid = sid'
        · rw [if_pos hsid]
          have hmapid : (((storeBucket (runCtx l ContextStore.init) sid).map
              (fun e => if passesFilters now' ts' ie' e then bumpAccess e else e)).map
              (fun e => e.id))
              = (storeBucket (runCtx l ContextStore.init) sid).map (fun e => e.id) := by
            rw [List.map_map]
            apply List.map_congr_left
            intro e _
            by_cases hp : passesFilters now' ts' ie' e <;> simp [hp, bumpAccess]
          rw [hmapid]
          exact ihN sid
        · rw [if_neg hsid]
          exact ihN sid
      · intro sid e he
        rw [runCtx_append, bucket_apply_get] at he
        rw [hRI]
        by_cases hsid : sid = sid'
        · subst hsid
          rw [if_pos rfl] at he
          rcases List.mem_map.mp he with ⟨e0, he0, rfl⟩
          by_cases hp : passesFilters now' ts' ie' e0
          · simp only [hp, if_true]
            refine iff_of_true (by simp [bumpAccess]) (Or.inr ⟨by trivial, bumpAccess e0,
              get_result_mem_of he0 hp, rfl⟩)
          · simp only [hp, if_false]
            constructor
            · intro hc
              exact Or.inl ((ihC sid e0 he0).mp hc)
            · rintro (h | ⟨-, e', he', hid⟩)
              · exact (ihC sid e0 he0).mpr h
              · exfalso
                rcases get_result_mem he' with ⟨e1, he1, hp1, rfl⟩
                have hid' : e1.id = e0.id := by simpa [bumpAccess] using hid
                have he10 : e1 = e0 := List.inj_on_of_nodup_map (ihN sid) he1 he0 hid'
                subst he10
                exact hp hp1
        · rw [if_neg hsid] at he
          constructor
          · intro hc
            exact Or.inl ((ihC sid e he).mp hc)
          · rintro (h | ⟨heq, -⟩)
            · exact (ihC sid e he).mpr h
            · exact absurd heq (fun hc => hsid hc.symm)
    | sweep now' =>
      have hRI : ∀ sid x, ReturnedId (l ++ [CtxOp.sweep now']) sid x ↔
          ReturnedId l sid x := by
        intro sid x
        rw [returnedId_append]
        constructor
        · rintro (h | ⟨ts, ie, now2, heq, -⟩)
          · exact h
          · cases heq
        · exact Or.inl
      constructor
      · intro sid
        rw [runCtx_append, bucket_apply_sweep now' _ hkeys]
        exact (ihN sid).sublist ((List.filter_sublist _).map _)
      · intro sid e he
        rw [runCtx_append, bucket_apply_sweep now' _ hkeys] at he
        rw [hRI]
        exact ihC sid e (List.mem_of_mem_filter he)
    | del sid'' =>
      have hRI : ∀ sid x, ReturnedId (l ++ [CtxOp.del sid'']) sid x ↔
          ReturnedId l sid x := by
        intro sid x
        rw [returnedId_append]
        constructor
        · rintro (h | ⟨ts, ie, now2, heq, -⟩)
          · exact h
          · cases heq
        · exact Or.inl
      constructor
      · intro sid
        rw [runCtx_append, bucket_apply_del sid'' _ hkeys]
        by_cases hsid : sid = sid''
        · rw [if_pos hsid]
          simp
        · rw [if_neg hsid]
          exact ihN sid
      · intro sid e he
        rw [runCtx_append, bucket_apply_del sid'' _ hkeys] at he
        rw [hRI]
        by_cases hsid : sid = sid''
        · rw [if_pos hsid] at he
          cases he
        · rw [if_neg hsid] at he
          exact ihC sid e he

/-- C7 (amended): over any trace of add/get/sweep/delete calls from an
empty store with distinct uuids, `types_accessed` contains a type iff some
still-stored entry of that type was included in the result of an earlier
`get` call for that session (under the filters that get used — an expired
entry returned through `include_expired` also counts). -/
theorem C7_types_accessed (ops : List CtxOp) (sid t : String)
    (hwf : (addIds ops).Nodup) :
    t ∈ ContextStore.get_context_types_used sid (runCtx ops ContextStore.init)
      ↔ ∃ e ∈ storeBucket (runCtx ops ContextStore.init) sid,
          e.type = t ∧ ReturnedId ops sid e.id := by
  have hC := (ctx_main_inv ops hwf).2
  constructor
  · intro ht
    simp only [ContextStore.get_context_types_used, List.mem_dedup] at ht
    rcases List.mem_map.mp ht with ⟨e, he, rfl⟩
    have hmf := List.mem_filter.mp he
    exact ⟨e, hmf.1, rfl, (hC sid e hmf.1).mp (of_decide_eq_true hmf.2)⟩
  · rintro ⟨e, he, rfl, hri⟩
    have hcnt : 0 < e.accessed_count := (hC sid e he).mpr hri
    simp only [ContextStore.get_context_types_used, List.mem_dedup]
    exact List.mem_map_of_mem _ (List.mem_filter.mpr ⟨he, decide_eq_true hcnt⟩)

/-- The single stored entry of the C7 counterexample trace. -/
def entryC7 : ContextEntry :=
  { id := "e1", session_id := "s1", type := "invoice", data := [], priority := "normal",
    source := "n8n", created_at := 0, ttl := 60, accessed_count := 0 }

/-- The payload injected by both C7 traces. -/
def payC7 : ContextPayload :=
  { session_id := "s1", type := "invoice", data := [], priority := "normal",
    ttl_seconds := some 60, source := "n8n" }

/-- Add one TTL-60 entry at time 0, then read it at time 100 (expired)
with `include_expired = true`. -/
def trC7 : List CtxOp :=
  [CtxOp.add payC7 60 0 "e1", CtxOp.get "s1" none true 100]

/-- Counterexample for C7 as stated: after that trace, `types_accessed`
reports `invoice`, yet no get call ever returned an unexpired entry of
that type — the only get returned the entry while it was already
expired, via `include_expired`. -/
theorem C7_unexpired_counterexample :
    "invoice" ∈ ContextStore.get_context_types_used "s1" (runCtx trC7 ContextStore.init)
    ∧ ¬ ReturnedUnexpiredStillStored trC7 "s1" "invoice" := by
  constructor
  · decide
  · rintro ⟨i, hi, ts, ie, now, hop, e', he', htype, hunexp, -⟩
    have h2 : i < 2 := by simpa [trC7] using hi
    interval_cases i
    · rw [show trC7.get ⟨0, hi⟩ = CtxOp.add payC7 60 0 "e1" from rfl] at hop
      exact CtxOp.noConfusion hop
    · rw [show trC7.get ⟨1, hi⟩ = CtxOp.get "s1" none true 100 from rfl] at hop
      injection hop with hsid hts hie hnow
      subst hts
      subst hie
      subst hnow

      rcases get_result_mem he' with ⟨e0, he0, hp0, rfl⟩
      have hb1 : storeBucket (runCtx (trC7.take 1) ContextStore.init) "s1" = [entryC7] :=
        rfl
      rw [hb1] at he0
      have he0' := List.mem_singleton.mp he0
      subst he0'
      exact absurd hunexp (by decide)

/-- The C7 witness trace: the entry is read while still unexpired. -/
def trC7W : List CtxOp :=
  [CtxOp.add payC7 60 0 "e1", CtxOp.get "s1" none false 10]

/-- Witness for C7 (amended) at the concrete trace: `invoice` is reported
by `types_accessed`, so some still-stored invoice entry was returned by an
earlier get. -/
theorem C7_types_accessed_witness :
    ∃ e ∈ storeBucket (runCtx trC7W ContextStore.init) "s1",
      e.type = "invoice" ∧ ReturnedId trC7W "s1" e.id :=
  (C7_types_accessed trC7W "s1" "invoice" (by decide)).mp (by decide)
